import Mathlib

/-! pg2ch: replication consumer and LSN text encodings.

A shallow embedding of `pkg/utils/lsn.go` and `pkg/consumer/consumer.go`.

* Go strings are lists of runes (`List Char`); every string that the functions
  below print is ASCII, so runes and bytes coincide on them.
* `uint64` values are natural numbers, reduced modulo `2 ^ 64` where Go wraps.
* Go `error` values are their messages; `none` is the `nil` error.
* The library routines the source calls (`fmt.Sprintf`, `fmt.Sscanf`,
  `strconv.ParseUint`, the `pglogrepl` frame parsers) are embedded next to the
  functions that call them, specialised to the format strings and bases the
  source passes.
-/

set_option linter.dupNamespace false

namespace Pg2ch

/-- A Go `error` value, identified with its message. -/
abbrev Err := String

/-- The type `utils.LSN` (`type LSN uint64`): a natural number below `2 ^ 64`. -/
abbrev LSN := Nat

/-- The modulus of `uint64` arithmetic. -/
def two64 : Nat := 2 ^ 64

/-- The constant `InvalidLSN LSN = 0`. -/
def InvalidLSN : LSN := 0

/-! ## Package `fmt`: printing of unsigned integers in base 16 -/

namespace fmt

/-- The digit table `ldigits = "0123456789abcdefx"` of `fmt/format.go`. -/
def ldigits : List Char :=
  ['0', '1', '2', '3', '4', '5', '6', '7', '8', '9', 'a', 'b', 'c', 'd', 'e', 'f', 'x']

/-- The digit table `udigits = "0123456789ABCDEFX"` of `fmt/format.go`. -/
def udigits : List Char :=
  ['0', '1', '2', '3', '4', '5', '6', '7', '8', '9', 'A', 'B', 'C', 'D', 'E', 'F', 'X']

/-- The base-16 digit loop of `fmtInteger`:
`for u >= 16 { i--; buf[i] = digits[u&0xF]; u >>= 4 }; i--; buf[i] = digits[u]`.
The buffer is filled from its end, so `buf` holds the digits written so far.
The loop counter bounds the iterations; a `uint64` needs at most 16. -/
def fmtHexLoop (digits : List Char) : Nat → Nat → List Char → List Char
  | 0, _, buf => buf
  | k + 1, u, buf =>
    if 16 ≤ u then fmtHexLoop digits k (u / 16) (digits.getD (u % 16) '0' :: buf)
    else digits.getD u '0' :: buf

/-- The zero-padding loop of `fmtInteger`:
`for i > 0 && prec > len(buf)-i { i--; buf[i] = '0' }`. -/
def zeroPad (prec : Nat) (buf : List Char) : List Char :=
  List.replicate (prec - buf.length) '0' ++ buf

/-- The result of `fmt.Sprintf("%016x", u)` for a `uint64` argument: flag `0`
and width 16 make `fmtInteger` use precision 16. -/
def Sprintf_016x (u : Nat) : List Char :=
  zeroPad 16 (fmtHexLoop ldigits 16 (u % two64) [])

/-- The result of `fmt.Sprintf("%X", u)` for an unsigned argument of at most 64
bits: upper-case digits, no padding. -/
def Sprintf_X (u : Nat) : List Char :=
  fmtHexLoop udigits 16 (u % two64) []

/-! ### Scanning -/

/-- The constant `hugeWid = 1 << 30`, the rune limit of a scan. -/
def hugeWid : Nat := 2 ^ 30

/-- The table `space` of `fmt/scan.go`, as a test on the code point. -/
def isSpace (r : Char) : Bool :=
  let n := r.toNat
  (0x0009 ≤ n && n ≤ 0x000d) || n == 0x0020 || n == 0x0085 || n == 0x00a0 ||
  n == 0x1680 || (0x2000 ≤ n && n ≤ 0x200a) || n == 0x2028 || n == 0x2029 ||
  n == 0x202f || n == 0x205f || n == 0x3000

/-- The digit set `hexadecimalDigits = "0123456789aAbBcCdDeEfF"` of `fmt/scan.go`. -/
def hexadecimalDigits : List Char :=
  ['0', '1', '2', '3', '4', '5', '6', '7', '8', '9',
   'a', 'A', 'b', 'B', 'c', 'C', 'd', 'D', 'e', 'E', 'f', 'F']

/-- The scan state `ss`: the unread runes and the number of runes read. -/
structure ss where
  /-- The unread input. -/
  rs : List Char
  /-- The field `count`: runes consumed so far. -/
  count : Nat
deriving Repr, DecidableEq

/-- The method `ss.SkipSpace` with `nlIsSpace = false` (the setting of `Sscanf`);
`argLimit` is the rune count at which `ReadRune` reports end of input. -/
def SkipSpace (argLimit : Nat) : List Char → Nat → Except Err ss
  | [], n => .ok ⟨[], n⟩
  | r :: rest, n =>
    if argLimit ≤ n then .ok ⟨r :: rest, n⟩
    else if r = '\r' ∧ rest.head? = some '\n' ∧ n + 1 < argLimit then
      SkipSpace argLimit rest (n + 1)
    else if r = '\n' then .error "unexpected newline"
    else if isSpace r then SkipSpace argLimit rest (n + 1)
    else .ok ⟨r :: rest, n⟩

/-- The loop `for s.accept(digits) {}` of `scanNumber`, together with the first
`accept`: reads runes of `digits` until another rune, the end of the input or
`argLimit`; returns the token and the state after it. -/
def acceptAll (digits : List Char) (argLimit : Nat) : List Char → Nat → List Char × ss
  | [], n => ([], ⟨[], n⟩)
  | r :: rest, n =>
    if argLimit ≤ n then ([], ⟨r :: rest, n⟩)
    else if r ∈ digits then
      let (tok, s) := acceptAll digits argLimit rest (n + 1)
      (r :: tok, s)
    else ([], ⟨r :: rest, n⟩)

end fmt

/-! ## Package `strconv` -/

namespace strconv

/-- The digit value computed in the loop of `ParseUint`: `c - '0'` for a decimal
digit, `lower(c) - 'a' + 10` for a letter (`lower(c) = c | 0x20`), and a syntax
error (`none`) for any other byte. -/
def digitVal (c : Char) : Option Nat :=
  let b := c.toNat
  if 48 ≤ b ∧ b ≤ 57 then some (b - 48)
  else if b < 128 ∧ 97 ≤ (b ||| 0x20) ∧ (b ||| 0x20) ≤ 122 then some ((b ||| 0x20) - 97 + 10)
  else none

/-- The accumulation loop of `strconv.ParseUint(s, 16, 64)`, started at `n`:
`cutoff = maxUint64/16 + 1`, `maxVal = 1<<64 - 1`. -/
def parseUintLoop : List Char → Nat → Except Err Nat
  | [], n => .ok n
  | c :: cs, n =>
    match digitVal c with
    | none => .error "invalid syntax"
    | some d =>
      if 16 ≤ d then .error "invalid syntax"
      else if 2 ^ 60 ≤ n then .error "value out of range"
      else
        let n0 := (n * 16) % two64
        let n1 := (n0 + d) % two64
        if n1 < n0 ∨ two64 - 1 < n1 then .error "value out of range"
        else parseUintLoop cs n1

/-- The call `strconv.ParseUint(s, 16, 64)`. -/
def ParseUint16 (s : List Char) : Except Err Nat :=
  if s = [] then .error "invalid syntax" else parseUintLoop s 0

end strconv

namespace fmt

/-- The method `ss.scanUint(verb, 64)` for the verbs `x` and `X`: skip space,
fail at end of input, read a run of hexadecimal digits and convert it. The
final truncation test is vacuous for a 64-bit target. -/
def scanUint (argLimit : Nat) (s : ss) : Except Err (Nat × ss) :=
  match SkipSpace argLimit s.rs s.count with
  | .error e => .error e
  | .ok s1 =>
    if s1.rs = [] ∨ argLimit ≤ s1.count then .error "unexpected EOF"
    else
      let (tok, s2) := acceptAll hexadecimalDigits argLimit s1.rs s1.count
      if tok = [] then .error "expected integer"
      else
        match strconv.ParseUint16 tok with
        | .error e => .error e
        | .ok v => .ok (v, s2)

/-- One verb of `doScanf` with an optional width: `SkipSpace`, then
`argLimit = min(limit, count + maxWid)`, then `scanOne` on an unsigned target. -/
def scanVerb (maxWid : Nat) (s : ss) : Except Err (Nat × ss) :=
  match SkipSpace hugeWid s.rs s.count with
  | .error e => .error e
  | .ok s1 => scanUint (min hugeWid (s1.count + maxWid)) s1

/-- The call `fmt.Sscanf(str, "%016x", &v)` with `v` of an unsigned 64-bit kind:
`parsenum` reads the width 16 from `016`; the result is the error or the pair
of the operand count `n` and the value stored in `v`. -/
def Sscanf_016x (str : List Char) : Except Err (Nat × Nat) :=
  match scanVerb 16 ⟨str, 0⟩ with
  | .error e => .error e
  | .ok (v, _) => .ok (1, v)

/-- The literal `/` in `advance`: `mustReadRune` and compare. -/
def advanceSlash (s : ss) : Except Err ss :=
  match s.rs with
  | [] => .error "unexpected EOF"
  | r :: rest =>
    if hugeWid ≤ s.count then .error "unexpected EOF"
    else if r = '/' then .ok ⟨rest, s.count + 1⟩
    else .error "input does not match format"

/-- The call `fmt.Sscanf(str, "%X/%X", &a, &b)` with `a`, `b` of type `uint64`. -/
def Sscanf_X_slash_X (str : List Char) : Except Err (Nat × Nat × Nat) :=
  match scanVerb hugeWid ⟨str, 0⟩ with
  | .error e => .error e
  | .ok (a, s1) =>
    match advanceSlash s1 with
    | .error e => .error e
    | .ok s2 =>
      match scanVerb hugeWid s2 with
      | .error e => .error e
      | .ok (b, _) => .ok (2, a, b)

end fmt

/-! ## Package `pglogrepl`: the canonical LSN form -/

namespace pglogrepl

/-- The method `pglogrepl.LSN.String`:
`fmt.Sprintf("%X/%X", uint32(lsn>>32), uint32(lsn))`. -/
def LSN_String (lsn : Nat) : List Char :=
  fmt.Sprintf_X ((lsn / 2 ^ 32) % 2 ^ 32) ++ '/' :: fmt.Sprintf_X (lsn % 2 ^ 32)

/-- The function `pglogrepl.ParseLSN`: scan with `"%X/%X"`, fail on a scan error
or on `nparsed != 2`, else `LSN((upperHalf << 32) + lowerHalf)`. -/
def ParseLSN (s : List Char) : Except Err Nat :=
  match fmt.Sscanf_X_slash_X s with
  | .error e => .error ("failed to parse LSN: " ++ e)
  | .ok (nparsed, upperHalf, lowerHalf) =>
    if nparsed ≠ 2 then .error ("failed to parsed LSN: " ++ String.mk s)
    else .ok (((upperHalf * 2 ^ 32) % two64 + lowerHalf) % two64)

end pglogrepl

/-! ## `pkg/utils/lsn.go` -/

namespace utils

/-- The method `LSN.Hex`: `fmt.Sprintf(hexFmt, uint64(l))` with `hexFmt = "%016x"`. -/
def Hex (l : LSN) : String := ⟨fmt.Sprintf_016x l⟩

/-- The method `(*LSN).ParseHex`. The receiver `l` is the value before the call;
the result is the returned error and the receiver after the call, which is
assigned only when the scan succeeds with one operand. -/
def ParseHex (l : LSN) (hexStr : String) : Option Err × LSN :=
  match fmt.Sscanf_016x hexStr.data with
  | .error e => (some ("could not parse hex: " ++ e), l)
  | .ok (n, lsn) =>
    if n ≠ 1 then (some "could not parse hex", l)
    else (none, lsn)

/-- The method `(*LSN).Parse`: the receiver is assigned only when
`pglogrepl.ParseLSN` succeeds. -/
def Parse (l : LSN) (lsn : String) : Option Err × LSN :=
  match pglogrepl.ParseLSN lsn.data with
  | .error e => (some e, l)
  | .ok tmp => (none, tmp)

/-- The method `LSN.IsValid`. -/
def IsValid (l : LSN) : Bool := l != InvalidLSN

/-- The method `LSN.String`: `pglogrepl.LSN(l).String()`. -/
def String (l : LSN) : String := ⟨pglogrepl.LSN_String l⟩

end utils


/-! ## Package `pglogrepl`: replication frames -/

namespace pglogrepl

/-- The constant `PrimaryKeepaliveMessageByteID = 'k'`. -/
def PrimaryKeepaliveMessageByteID : UInt8 := 107

/-- The constant `XLogDataByteID = 'w'`. -/
def XLogDataByteID : UInt8 := 119

/-- The call `binary.BigEndian.Uint64(buf)` on a buffer of at least 8 bytes. -/
def bigEndianUint64 (buf : List UInt8) : Nat :=
  (buf.take 8).foldl (fun acc b => acc * 256 + b.toNat) 0

/-- The conversion `int64(x)` of a `uint64`. -/
def toInt64 (x : Nat) : Int :=
  if x < 2 ^ 63 then (x : Int) else (x : Int) - 2 ^ 64

/-- The struct `PrimaryKeepaliveMessage`; the server time is kept as the
microseconds since 2000-01-01 that `pgTimeToTime` converts. -/
structure PrimaryKeepaliveMessage where
  ServerWALEnd : Nat
  ServerTime : Int
  ReplyRequested : Bool
deriving Repr, DecidableEq

/-- The function `ParsePrimaryKeepaliveMessage`: the body must be 17 bytes. -/
def ParsePrimaryKeepaliveMessage (buf : List UInt8) : Except Err PrimaryKeepaliveMessage :=
  if buf.length ≠ 17 then .error "PrimaryKeepaliveMessage must be 17 bytes"
  else .ok
    { ServerWALEnd := bigEndianUint64 buf
      ServerTime := toInt64 (bigEndianUint64 (buf.drop 8))
      ReplyRequested := buf.getD 16 0 != 0 }

/-- The struct `XLogData`. -/
structure XLogData where
  WALStart : Nat
  ServerWALEnd : Nat
  ServerTime : Int
  WALData : List UInt8
deriving Repr, DecidableEq

/-- The function `ParseXLogData`: the body must be at least 24 bytes; the
payload is what follows them. -/
def ParseXLogData (buf : List UInt8) : Except Err XLogData :=
  if buf.length < 24 then .error "XLogData must be at least 24 bytes"
  else .ok
    { WALStart := bigEndianUint64 buf
      ServerWALEnd := bigEndianUint64 (buf.drop 8)
      ServerTime := toInt64 (bigEndianUint64 (buf.drop 16))
      WALData := buf.drop 24 }

/-- The struct `StandbyStatusUpdate`, of which the consumer sets one field. -/
structure StandbyStatusUpdate where
  WALWritePosition : Nat
deriving Repr, DecidableEq

end pglogrepl

/-! ## `pkg/consumer/consumer.go`

The environment of the consumer is explicit: the outcome of every call on the
connection, the case that a `select` runs and the replies of the handler are
arguments, and the calls made on the connection and on the handler are
recorded in the state. Logging and the wait group are left out. -/

namespace consumer

/-- A message returned by `ReceiveMessage`: a `*pgproto3.CopyData` with its
`Data`, or a message of another type. -/
inductive BackendMessage where
  | CopyData (Data : List UInt8)
  | other (name : String)
deriving Repr, DecidableEq

/-- The channel `errCh chan error` with no receiver at work: its capacity and
the errors it buffers, oldest first. -/
structure Chan where
  cap : Nat
  buf : List Err
deriving Repr, DecidableEq

/-- Whether the send `ch <- v` can proceed, and the channel after it. -/
def Chan.trySend (ch : Chan) (v : Err) : Option Chan :=
  if ch.buf.length < ch.cap then some { ch with buf := ch.buf ++ [v] } else none

/-- The calls made on the connection `*pgconn.PgConn`. -/
structure PgConn where
  /-- The updates passed to `pglogrepl.SendStandbyStatusUpdate`, oldest first. -/
  statusUpdates : List pglogrepl.StandbyStatusUpdate
  /-- The start positions passed to `pglogrepl.StartReplication`. -/
  startCalls : List Nat
  /-- The number of calls of `Close`. -/
  closeCalls : Nat
deriving Repr, DecidableEq

/-- A connection on which nothing has been called. -/
def PgConn.fresh : PgConn := ⟨[], [], 0⟩

/-- The struct `consumer` with the traces of its collaborators; `M` is the type
`message.Message` of decoded messages. -/
structure consumer (M : Type) where
  /-- Whether `ctx.Done()` is closed. -/
  ctxDone : Bool
  conn : PgConn
  currentLSN : LSN
  errCh : Chan
  /-- The calls of `handler.HandleMessage`, oldest first. -/
  handlerCalls : List (LSN × M)
deriving Repr, DecidableEq

/-- What one call of `Handler.HandleMessage` does: the positions it passes to
`AdvanceLSN`, in order, and the error it returns. -/
structure HandlerReply where
  advances : List LSN
  err : Option Err
deriving Repr, DecidableEq

/-- The interface `Handler`: the reply to a call, given the earlier calls. -/
abbrev Handler (M : Type) := List (LSN × M) → LSN → M → HandlerReply

/-- The function `decoder.Parse` of `pkg/decoder`, a parameter of the model. -/
abbrev Decoder (M : Type) := List UInt8 → Except Err M

variable {M : Type}

/-- The function `New`: the consumer starts at `startLSN` with the given channel. -/
def New (errCh : Chan) (startLSN : LSN) : consumer M :=
  { ctxDone := false, conn := PgConn.fresh, currentLSN := startLSN, errCh := errCh,
    handlerCalls := [] }

/-- The method `AdvanceLSN`: `c.currentLSN = lsn`. -/
def AdvanceLSN (c : consumer M) (lsn : LSN) : consumer M :=
  { c with currentLSN := lsn }

/-- The method `close`: `select { case c.errCh <- err: default: }`. -/
def close (c : consumer M) (err : Err) : consumer M :=
  match c.errCh.trySend err with
  | some ch => { c with errCh := ch }
  | none => c

/-- The method `closeDbConnection`: one call of `c.conn.Close`, whose error is
only logged. -/
def closeDbConnection (c : consumer M) : consumer M :=
  { c with conn := { c.conn with closeCalls := c.conn.closeCalls + 1 } }

/-- The method `SendStatus`: builds `StandbyStatusUpdate{WALWritePosition:
c.currentLSN}` and passes it to `SendStandbyStatusUpdate`, whose result is
`transport`. -/
def SendStatus (c : consumer M) (transport : Option Err) : consumer M × Option Err :=
  let status : pglogrepl.StandbyStatusUpdate := { WALWritePosition := c.currentLSN }
  let c1 := { c with conn := { c.conn with statusUpdates := c.conn.statusUpdates ++ [status] } }
  match transport with
  | some err => (c1, some ("failed to send standy status: " ++ err))
  | none => (c1, none)

/-- The method `startDecoding`: `StartReplication` at `c.currentLSN`, whose
result is `start`; on failure the connection is closed. -/
def startDecoding (c : consumer M) (start : Option Err) : consumer M × Option Err :=
  let c1 := { c with conn := { c.conn with startCalls := c.conn.startCalls ++ [c.currentLSN] } }
  match start with
  | some err =>
    (closeDbConnection c1,
      some ("failed to start decoding logical replication messages: " ++ err))
  | none => (c1, none)

/-- The result of `c.conn.ReceiveMessage(wctx)` as the loop tells it apart. -/
inductive Received where
  /-- The error `context.DeadlineExceeded`. -/
  | deadlineExceeded
  /-- The error `context.Canceled`. -/
  | canceled
  /-- Any other error. -/
  | failed (err : Err)
  /-- No error; `none` is the nil message. -/
  | message (repMsg : Option BackendMessage)
deriving Repr, DecidableEq

/-- The case of the `select` that one iteration runs, with the results of the
calls made in it. -/
inductive Branch where
  /-- The case `<-c.ctx.Done()`. -/
  | done
  /-- The case `<-statusTicker.C`; `transport` is the result of the send. -/
  | tick (transport : Option Err)
  /-- The case `default`; `r` is the result of `ReceiveMessage`. -/
  | recv (r : Received)
deriving Repr, DecidableEq

/-- Whether the `select` can run the case in state `c`: the case `done` needs a
cancelled context; the ticker case can run whenever the ticker has fired, which
the state does not record; `default` runs only when no other case is ready, so
not once the context is cancelled. Among several ready cases Go picks any. -/
def Branch.enabled (c : consumer M) : Branch → Bool
  | .done => c.ctxDone
  | .tick _ => true
  | .recv _ => !c.ctxDone

/-- How the goroutine of `processReplicationMessage` ends. -/
inductive Exit where
  /-- A `return` statement. -/
  | returned
  /-- The call `log.Fatalln`, which ends the process with `os.Exit(1)`. -/
  | fatal
  /-- A run-time panic. -/
  | panicked
deriving Repr, DecidableEq

/-- The state after an iteration: the loop goes on, or the goroutine has ended. -/
inductive Step (M : Type) where
  | next (c : consumer M)
  | exit (how : Exit) (c : consumer M)
deriving Repr, DecidableEq

/-- The state held by a step. -/
def Step.state : Step M → consumer M
  | .next c => c
  | .exit _ c => c

/-- The calls of `AdvanceLSN` that the handler makes during `HandleMessage`. -/
def applyAdvances (c : consumer M) (advances : List LSN) : consumer M :=
  advances.foldl AdvanceLSN c

/-- The type switch on the received message (lines 165 to 201). -/
def dispatch (decode : Decoder M) (handler : Handler M) (c : consumer M) :
    BackendMessage → Step M
  | .other _ => .next c
  | .CopyData [] => .exit .panicked c
  | .CopyData (tag :: body) =>
    if tag = pglogrepl.PrimaryKeepaliveMessageByteID then
      match pglogrepl.ParsePrimaryKeepaliveMessage body with
      | .error _ => .exit .fatal c
      | .ok _ => .next c
    else if tag = pglogrepl.XLogDataByteID then
      match pglogrepl.ParseXLogData body with
      | .error _ => .exit .fatal c
      | .ok xld =>
        match decode xld.WALData with
        | .error err => .exit .returned (close c ("invalid pgoutput message: " ++ err))
        | .ok msg =>
          let reply := handler c.handlerCalls xld.WALStart msg
          let c1 := { c with handlerCalls := c.handlerCalls ++ [(xld.WALStart, msg)] }
          let c2 := applyAdvances c1 reply.advances
          match reply.err with
          | some err => .exit .returned (close c2 ("error handling waldata: " ++ err))
          | none => .next c2
    else .next c

/-- One iteration of the loop of `processReplicationMessage`. -/
def iteration (decode : Decoder M) (handler : Handler M) (c : consumer M) :
    Branch → Step M
  | .done => .exit .returned (closeDbConnection c)
  | .tick transport =>
    match SendStatus c transport with
    | (c1, some err) => .exit .returned (close c1 ("could not send replay progress: " ++ err))
    | (c1, none) => .next c1
  | .recv .deadlineExceeded => .next c
  | .recv .canceled => .exit .returned c
  | .recv (.failed err) => .exit .returned (close c ("replication failed: " ++ err))
  | .recv (.message none) => .next c
  | .recv (.message (some repMsg)) => dispatch decode handler c repMsg

/-- The method `processReplicationMessage` along a script of iterations: it
stops at the first iteration that ends the goroutine; `next` means that the
loop is still running when the script is used up. -/
def processReplicationMessage (decode : Decoder M) (handler : Handler M) :
    consumer M → List Branch → Step M
  | c, [] => .next c
  | c, b :: script =>
    match iteration decode handler c b with
    | .next c1 => processReplicationMessage decode handler c1 script
    | .exit how c1 => .exit how c1

/-- The method `Run`, with the results of `ConnectConfig`, `StartReplication`
and the first status send. The result is the returned error, the consumer, and
whether the goroutine of `processReplicationMessage` was started. -/
def Run (c : consumer M) (connect start transport : Option Err) :
    Option Err × consumer M × Bool :=
  match connect with
  | some err => (some ("could not connect using replication protocol: " ++ err), c, false)
  | none =>
    let c0 := { c with conn := PgConn.fresh }
    match startDecoding c0 start with
    | (c1, some err) => (some ("could not start replication slot: " ++ err), c1, false)
    | (c1, none) =>
      match SendStatus c1 transport with
      | (c2, some err) => (some ("could not send replay progress: " ++ err), c2, false)
      | (c2, none) => (none, c2, true)

/-- A session: `Run`, then the loop along a script when it was started. -/
def session (decode : Decoder M) (handler : Handler M) (c : consumer M)
    (connect start transport : Option Err) (script : List Branch) : Step M :=
  match Run c connect start transport with
  | (_, c1, false) => .exit .returned c1
  | (_, c1, true) => processReplicationMessage decode handler c1 script

/-- A call on the progress tracker or the status reporter. -/
inductive Op where
  | advance (lsn : LSN)
  | sendStatus (transport : Option Err)
deriving Repr, DecidableEq

/-- One call of `AdvanceLSN` or `SendStatus`. -/
def applyOp (c : consumer M) : Op → consumer M
  | .advance lsn => AdvanceLSN c lsn
  | .sendStatus transport => (SendStatus c transport).1

/-- The arguments of the `AdvanceLSN` calls among `ops`, in order. -/
def advanceArgs : List Op → List LSN
  | [] => []
  | .advance lsn :: ops => lsn :: advanceArgs ops
  | .sendStatus _ :: ops => advanceArgs ops

/-- The cancellation signal: the owner cancels `ctx`. -/
def cancel (c : consumer M) : consumer M :=
  { c with ctxDone := true }

/-- The frame kinds that the dispatch tells apart. -/
inductive Frame where
  | Keepalive (pkm : pglogrepl.PrimaryKeepaliveMessage)
  | WALData (xld : pglogrepl.XLogData)
  | Unrecognized (raw : BackendMessage)
deriving Repr, DecidableEq

/-- The frame that a received message carries, by the tests of the dispatch:
the tag byte `Data[0]` and the parser of the tagged body. A `CopyData` with no
tag byte, or with a tagged body that its parser rejects, carries none. -/
def frameOf : BackendMessage → Option Frame
  | .other name => some (.Unrecognized (.other name))
  | .CopyData [] => none
  | .CopyData (tag :: body) =>
    if tag = pglogrepl.PrimaryKeepaliveMessageByteID then
      match pglogrepl.ParsePrimaryKeepaliveMessage body with
      | .error _ => none
      | .ok pkm => some (.Keepalive pkm)
    else if tag = pglogrepl.XLogDataByteID then
      match pglogrepl.ParseXLogData body with
      | .error _ => none
      | .ok xld => some (.WALData xld)
    else some (.Unrecognized (.CopyData (tag :: body)))

/-- The WAL-start positions of the WALData frames among `msgs`, in order. -/
def walStarts : List BackendMessage → List LSN
  | [] => []
  | m :: msgs =>
    match frameOf m with
    | some (.WALData xld) => xld.WALStart :: walStarts msgs
    | _ => walStarts msgs

/-- The position and decoded message of every WALData frame among `msgs` whose
payload decodes, in order. -/
def walCalls (decode : Decoder M) : List BackendMessage → List (LSN × M)
  | [] => []
  | m :: msgs =>
    match frameOf m with
    | some (.WALData xld) =>
      match decode xld.WALData with
      | .ok msg => (xld.WALStart, msg) :: walCalls decode msgs
      | .error _ => walCalls decode msgs
    | _ => walCalls decode msgs

/-- The iterations that receive the messages `msgs`, one each. -/
def receiveAll (msgs : List BackendMessage) : List Branch :=
  msgs.map (fun m => .recv (.message (some m)))

/-- A decoder that accepts every payload and returns it as the message. -/
def sampleDecode : Decoder (List UInt8) := fun payload => .ok payload

/-- A decoder that rejects every payload. -/
def failingDecode : Decoder (List UInt8) := fun _ => .error "unknown message type"

/-- A handler that advances the tracker to the position of each message. -/
def sampleHandler : Handler (List UInt8) := fun _ lsn _ => ⟨[lsn], none⟩

/-- A handler that rejects every message. -/
def failingHandler : Handler (List UInt8) := fun _ _ _ => ⟨[], some "insert failed"⟩

/-- A Keepalive message: tag `k` and a body of 17 bytes. -/
def sampleKeepalive : BackendMessage :=
  .CopyData (107 :: (List.replicate 16 0 ++ [0]))

/-- A WALData message: tag `w`, WAL start `0x00000000015000lo`, server end
position and time zero, and a payload of three bytes. -/
def sampleWALData (lo : UInt8) : BackendMessage :=
  .CopyData (119 :: ([0, 0, 0, 0, 1, 0x50, 0, lo] ++ List.replicate 16 0 ++ [1, 2, 3]))

/-- A `CopyData` message with a tag that is neither `k` nor `w`. -/
def sampleUnrecognized : BackendMessage := .CopyData [120, 1]

/-- The scripted sequence Keepalive, WALData, WALData, Unrecognized, WALData. -/
def sampleFrames : List BackendMessage :=
  [sampleKeepalive, sampleWALData 0x10, sampleWALData 0x20, sampleUnrecognized,
    sampleWALData 0x30]

/-- A consumer with an empty single-slot error sink, started at `0x1500000`. -/
def sampleConsumer : consumer (List UInt8) := New ⟨1, []⟩ 0x1500000

/-- The write positions passed to the connection so far, oldest first. -/
def transmitted (c : consumer M) : List Nat :=
  c.conn.statusUpdates.map (fun u => u.WALWritePosition)

end consumer

/-- The property of a digit table that printing relies on: its first sixteen
entries are hexadecimal digits for the scanner, with their index as value. -/
def digitsOK (digits : List Char) : Prop :=
  ∀ d, d < 16 → strconv.digitVal (digits.getD d '0') = some d ∧
    digits.getD d '0' ∈ fmt.hexadecimalDigits

/-! ## Round trips of the LSN encodings -/

section LsnLemmas

open fmt strconv

theorem ldigits_ok : digitsOK ldigits := by
  unfold digitsOK; decide

theorem udigits_ok : digitsOK udigits := by
  unfold digitsOK; decide

theorem hex_not_space : ∀ c ∈ hexadecimalDigits,
    isSpace c = false ∧ c ≠ '\n' ∧ c ≠ '\r' ∧ c ≠ '/' := by
  decide

theorem slash_not_hex : '/' ∉ hexadecimalDigits := by decide

/-- The digit loop prepends between one and `k` hexadecimal digits to the buffer. -/
theorem fmtHexLoop_shape (digits : List Char) (hd : digitsOK digits) :
    ∀ (k u : Nat) (buf : List Char), 0 < k → u < 16 ^ k →
      ∃ ds, fmtHexLoop digits k u buf = ds ++ buf ∧ 0 < ds.length ∧ ds.length ≤ k ∧
        ∀ c ∈ ds, c ∈ hexadecimalDigits := by
  intro k
  induction k with
  | zero => intro u buf h; omega
  | succ k ih =>
    intro u buf _ hlt
    unfold fmtHexLoop
    by_cases hu : 16 ≤ u
    · rw [if_pos hu]
      have hlt2 : u / 16 < 16 ^ k := by
        rw [Nat.div_lt_iff_lt_mul (by norm_num)]
        rw [pow_succ] at hlt
        exact hlt
      have hk : 0 < k := by
        rcases Nat.eq_zero_or_pos k with h0 | h0
        · subst h0; simp at hlt; omega
        · exact h0
      obtain ⟨ds, h1, h2, h3, h4⟩ := ih (u / 16) (digits.getD (u % 16) '0' :: buf) hk hlt2
      refine ⟨ds ++ [digits.getD (u % 16) '0'], ?_, ?_, ?_, ?_⟩
      · rw [h1, List.append_assoc]; rfl
      · rw [List.length_append]; omega
      · rw [List.length_append, List.length_singleton]; omega
      · intro c hc
        rcases List.mem_append.mp hc with hc | hc
        · exact h4 c hc
        · rw [List.mem_singleton] at hc
          rw [hc]
          exact (hd (u % 16) (Nat.mod_lt _ (by norm_num))).2
    · rw [if_neg hu]
      refine ⟨[digits.getD u '0'], rfl, by simp, by simp, ?_⟩
      intro c hc
      rw [List.mem_singleton] at hc
      rw [hc]
      exact (hd u (by omega)).2

/-- Parsing the output of the digit loop from zero continues parsing the
buffer from the printed number. -/
theorem parse_fmtHexLoop (digits : List Char) (hd : digitsOK digits) :
    ∀ (k u : Nat) (buf : List Char), 0 < k → u < 16 ^ k → u < two64 →
      parseUintLoop (fmtHexLoop digits k u buf) 0 = parseUintLoop buf u := by
  intro k
  induction k with
  | zero => intro u buf h; omega
  | succ k ih =>
    intro u buf _ hlt h64
    have h64n : u < 2 ^ 64 := h64
    unfold fmtHexLoop
    by_cases hu : 16 ≤ u
    · rw [if_pos hu]
      have hlt2 : u / 16 < 16 ^ k := by
        rw [Nat.div_lt_iff_lt_mul (by norm_num)]
        rw [pow_succ] at hlt
        exact hlt
      have hk : 0 < k := by
        rcases Nat.eq_zero_or_pos k with h0 | h0
        · subst h0; simp at hlt; omega
        · exact h0
      have hdiv : u / 16 < two64 := lt_of_le_of_lt (Nat.div_le_self _ _) h64
      rw [ih (u / 16) _ hk hlt2 hdiv]
      rw [parseUintLoop, (hd (u % 16) (Nat.mod_lt _ (by norm_num))).1]
      have h1 : ¬ (16 ≤ u % 16) := by omega
      have h2 : ¬ (2 ^ 60 ≤ u / 16) := by omega
      have h3 : (u / 16 * 16 % two64 + u % 16) % two64 = u := by
        unfold two64; omega
      have h4 : ¬ (u < u / 16 * 16 % two64 ∨ two64 - 1 < u) := by
        unfold two64; omega
      simp only [h1, h2, if_false, h3, h4]
    · rw [if_neg hu]
      rw [parseUintLoop, (hd u (by omega)).1]
      have h1 : ¬ (16 ≤ u) := hu
      have h3 : (0 * 16 % two64 + u) % two64 = u := by
        unfold two64; omega
      have h4 : ¬ (u < 0 * 16 % two64 ∨ two64 - 1 < u) := by
        unfold two64; omega
      simp only [h1, if_false, h3, h4]
      simp

/-- Leading zeros do not change the parsed value. -/
theorem parse_replicate_zero (m : Nat) (cs : List Char) :
    parseUintLoop (List.replicate m '0' ++ cs) 0 = parseUintLoop cs 0 := by
  induction m with
  | zero => rfl
  | succ m ih =>
    rw [List.replicate_succ, List.cons_append, parseUintLoop]
    have h0 : digitVal '0' = some 0 := by decide
    rw [h0]
    simpa [two64] using ih

/-- A rune that is no space and no line end stops `SkipSpace` at once. -/
theorem SkipSpace_stop (lim : Nat) (r : Char) (rest : List Char) (n : Nat)
    (h : r ∈ hexadecimalDigits) : SkipSpace lim (r :: rest) n = .ok ⟨r :: rest, n⟩ := by
  obtain ⟨h1, h2, h3, _⟩ := hex_not_space r h
  unfold SkipSpace
  by_cases hl : lim ≤ n
  · rw [if_pos hl]
  · rw [if_neg hl]
    simp [h1, h2, h3]

/-- A run of digits below the limit, followed by the end of the input or by a
rune outside the digit set, is accepted whole. -/
theorem acceptAll_run (lim : Nat) (rest : List Char)
    (hrest : ∀ r ∈ rest.head?, r ∉ hexadecimalDigits) :
    ∀ (ds : List Char) (n : Nat), (∀ c ∈ ds, c ∈ hexadecimalDigits) →
      n + ds.length ≤ lim →
      acceptAll hexadecimalDigits lim (ds ++ rest) n = (ds, ⟨rest, n + ds.length⟩) := by
  intro ds
  induction ds with
  | nil =>
    intro n _ _
    cases rest with
    | nil => rfl
    | cons r rest =>
      have hr : r ∉ hexadecimalDigits := hrest r (by simp)
      simp only [List.nil_append, acceptAll, List.length_nil, Nat.add_zero]
      by_cases hl : lim ≤ n
      · rw [if_pos hl]
      · rw [if_neg hl, if_neg hr]
  | cons c ds ih =>
    intro n hall hlen
    have hc : c ∈ hexadecimalDigits := hall c (by simp)
    have hlen2 : n + 1 + ds.length ≤ lim := by
      simp only [List.length_cons] at hlen; omega
    have hl : ¬ (lim ≤ n) := by
      simp only [List.length_cons] at hlen; omega
    have ih2 := ih (n + 1) (fun x hx => hall x (by simp [hx])) hlen2
    rw [List.cons_append, acceptAll, if_neg hl, if_pos hc, ih2]
    simp only [List.length_cons]
    congr 2
    omega

/-- One scan verb on a token of hexadecimal digits that fits the width. -/
theorem scanVerb_run (w : Nat) (ds rest : List Char) (n v : Nat)
    (hne : ds ≠ []) (hall : ∀ c ∈ ds, c ∈ hexadecimalDigits)
    (hrest : ∀ r ∈ rest.head?, r ∉ hexadecimalDigits)
    (hlen : n + ds.length ≤ min hugeWid (n + w))
    (hv : parseUintLoop ds 0 = .ok v) :
    scanVerb w ⟨ds ++ rest, n⟩ = .ok (v, ⟨rest, n + ds.length⟩) := by
  obtain ⟨c, tl, rfl⟩ := List.exists_cons_of_ne_nil hne
  have hc : c ∈ hexadecimalDigits := hall c (by simp)
  have hn : ¬ (min hugeWid (n + w) ≤ n) := by
    simp only [List.length_cons] at hlen; omega
  have hacc := acceptAll_run (min hugeWid (n + w)) rest hrest (c :: tl) n hall hlen
  simp only [List.cons_append] at hacc
  simp only [scanVerb, scanUint, List.cons_append, SkipSpace_stop _ c _ n hc, hacc,
    ParseUint16, hv]
  simp [hn]

/-- The string printed by `Hex` scans back to the number. -/
theorem Sscanf_Sprintf_016x (l : Nat) (h : l < 2 ^ 64) :
    Sscanf_016x (Sprintf_016x l) = .ok (1, l) := by
  have hmod : l % two64 = l := Nat.mod_eq_of_lt h
  have h16 : l < 16 ^ 16 := by norm_num at h ⊢; exact h
  obtain ⟨ds, h1, h2, h3, h4⟩ :=
    fmtHexLoop_shape ldigits ldigits_ok 16 l [] (by norm_num) h16
  have hparse := parse_fmtHexLoop ldigits ldigits_ok 16 l [] (by norm_num) h16 h
  rw [h1, List.append_nil] at hparse
  rw [List.append_nil] at h1
  have hzero : ('0' : Char) ∈ hexadecimalDigits := by decide
  have hall : ∀ c ∈ zeroPad 16 ds, c ∈ hexadecimalDigits := by
    intro c hc
    rcases List.mem_append.mp hc with hc | hc
    · rw [(List.mem_replicate.mp hc).2]; exact hzero
    · exact h4 c hc
  have hlenp : (zeroPad 16 ds).length = 16 := by
    simp only [zeroPad, List.length_append, List.length_replicate]; omega
  have hne : zeroPad 16 ds ≠ [] := by
    intro h0; rw [h0] at hlenp; simp at hlenp
  have hv : parseUintLoop (zeroPad 16 ds) 0 = .ok l := by
    rw [zeroPad, parse_replicate_zero]; exact hparse
  have hrun := scanVerb_run 16 (zeroPad 16 ds) [] 0 l hne hall (by simp)
    (by rw [hlenp]; simp [hugeWid]) hv
  rw [List.append_nil] at hrun
  simp only [Sscanf_016x, Sprintf_016x, hmod, h1, hrun]

/-- The canonical string scans back to its two halves. -/
theorem Sscanf_Sprintf_X_slash_X (a b : Nat) (ha : a < 2 ^ 64) (hb : b < 2 ^ 64) :
    Sscanf_X_slash_X (Sprintf_X a ++ '/' :: Sprintf_X b) = .ok (2, a, b) := by
  have hma : a % two64 = a := Nat.mod_eq_of_lt ha
  have hmb : b % two64 = b := Nat.mod_eq_of_lt hb
  have ha16 : a < 16 ^ 16 := by norm_num at ha ⊢; exact ha
  have hb16 : b < 16 ^ 16 := by norm_num at hb ⊢; exact hb
  obtain ⟨da, a1, a2, a3, a4⟩ :=
    fmtHexLoop_shape udigits udigits_ok 16 a [] (by norm_num) ha16
  obtain ⟨db, b1, b2, b3, b4⟩ :=
    fmtHexLoop_shape udigits udigits_ok 16 b [] (by norm_num) hb16
  have pa := parse_fmtHexLoop udigits udigits_ok 16 a [] (by norm_num) ha16 ha
  have pb := parse_fmtHexLoop udigits udigits_ok 16 b [] (by norm_num) hb16 hb
  rw [a1, List.append_nil] at pa
  rw [b1, List.append_nil] at pb
  rw [List.append_nil] at a1 b1
  have ra := scanVerb_run hugeWid da ('/' :: db) 0 a
    (by intro h0; rw [h0] at a2; simp at a2) a4
    (by intro r hr; simp at hr; rw [← hr]; exact slash_not_hex)
    (by simp [hugeWid]; omega) pa
  have rb := scanVerb_run hugeWid db [] (0 + da.length + 1) b
    (by intro h0; rw [h0] at b2; simp at b2) b4 (by simp)
    (by simp [hugeWid]; omega) pb
  rw [List.append_nil] at rb
  have hcount : ¬ (hugeWid ≤ 0 + da.length) := by simp [hugeWid]; omega
  simp only [Sscanf_X_slash_X, Sprintf_X, hma, hmb, a1, b1, ra, advanceSlash, hcount,
    if_false, if_true, rb]

/-- Recombining the two 32-bit halves of a 64-bit number. -/
theorem halves_join (l : Nat) (h : l < 2 ^ 64) :
    ((l / 2 ^ 32 % 2 ^ 32 * 2 ^ 32) % two64 + l % 2 ^ 32) % two64 = l := by
  unfold two64; omega

/-- The canonical form parses back to the position. -/
theorem ParseLSN_LSN_String (l : Nat) (h : l < 2 ^ 64) :
    pglogrepl.ParseLSN (pglogrepl.LSN_String l) = .ok l := by
  have h32 : l % 2 ^ 32 < 2 ^ 64 :=
    lt_trans (Nat.mod_lt _ (by norm_num)) (by norm_num)
  have h32b : l / 2 ^ 32 % 2 ^ 32 < 2 ^ 64 :=
    lt_trans (Nat.mod_lt _ (by norm_num)) (by norm_num)
  rw [pglogrepl.ParseLSN, pglogrepl.LSN_String, Sscanf_Sprintf_X_slash_X _ _ h32b h32]
  simp only [ne_eq, not_true_eq_false, if_false, halves_join l h]

end LsnLemmas

/-- Claim C1: for every 64-bit position `l` (and whatever the receiver held
before), `ParseHex` applied to `l.Hex()` returns the nil error and leaves the
receiver equal to `l`. -/
theorem C1_ParseHex_Hex (l r : LSN) (h : l < 2 ^ 64) :
    utils.ParseHex r (utils.Hex l) = (none, l) := by
  have hscan : fmt.Sscanf_016x (utils.Hex l).data = .ok (1, l) :=
    Sscanf_Sprintf_016x l h
  unfold utils.ParseHex
  rw [hscan]
  simp

/-- The round trip of `Hex` at position `0x1500030`. -/
theorem C1_ParseHex_Hex_witness :
    (0x1500030 : Nat) < 2 ^ 64 ∧
      utils.ParseHex 0 (utils.Hex 0x1500030) = (none, 0x1500030) :=
  ⟨by norm_num, C1_ParseHex_Hex 0x1500030 0 (by norm_num)⟩

/-- Claim C2: for every 64-bit position `l` (and whatever the receiver held
before), `Parse` applied to the canonical string `l.String()`, the upper-case
hexadecimal high and low 32 bits around a `/`, returns the nil error and leaves
the receiver equal to `l`. -/
theorem C2_Parse_String (l r : LSN) (h : l < 2 ^ 64) :
    utils.Parse r (utils.String l) = (none, l) := by
  have hparse : pglogrepl.ParseLSN (utils.String l).data = .ok l :=
    ParseLSN_LSN_String l h
  unfold utils.Parse
  rw [hparse]

/-- The round trip of the canonical form at position `0xABCDEF0123456789`. -/
theorem C2_Parse_String_witness :
    (0xABCDEF0123456789 : Nat) < 2 ^ 64 ∧
      utils.Parse 0 (utils.String 0xABCDEF0123456789) = (none, 0xABCDEF0123456789) :=
  ⟨by norm_num, C2_Parse_String 0xABCDEF0123456789 0 (by norm_num)⟩



/-! ## The progress tracker and the status reporter -/

section Tracker

open consumer

variable {M : Type}

theorem applyAdvances_currentLSN (c : consumer M) (advs : List LSN) (hne : advs ≠ []) :
    (applyAdvances c advs).currentLSN = advs.getLast hne := by
  induction advs generalizing c with
  | nil => exact absurd rfl hne
  | cons a rest ih =>
    cases rest with
    | nil => rfl
    | cons b rest2 =>
      have := ih (AdvanceLSN c a) (by simp)
      simpa [applyAdvances, List.foldl] using this

theorem applyAdvances_conn (c : consumer M) (advs : List LSN) :
    (applyAdvances c advs).conn = c.conn := by
  induction advs generalizing c with
  | nil => rfl
  | cons a rest ih =>
    have := ih (AdvanceLSN c a)
    simpa [applyAdvances, List.foldl, AdvanceLSN] using this

theorem applyAdvances_errCh (c : consumer M) (advs : List LSN) :
    (applyAdvances c advs).errCh = c.errCh := by
  induction advs generalizing c with
  | nil => rfl
  | cons a rest ih =>
    have := ih (AdvanceLSN c a)
    simpa [applyAdvances, List.foldl, AdvanceLSN] using this

theorem applyAdvances_handlerCalls (c : consumer M) (advs : List LSN) :
    (applyAdvances c advs).handlerCalls = c.handlerCalls := by
  induction advs generalizing c with
  | nil => rfl
  | cons a rest ih =>
    have := ih (AdvanceLSN c a)
    simpa [applyAdvances, List.foldl, AdvanceLSN] using this

theorem SendStatus_transmitted (c : consumer M) (transport : Option Err) :
    transmitted (SendStatus c transport).1 = transmitted c ++ [c.currentLSN] := by
  cases transport <;> simp [SendStatus, transmitted]

theorem SendStatus_currentLSN (c : consumer M) (transport : Option Err) :
    (SendStatus c transport).1.currentLSN = c.currentLSN := by
  cases transport <;> rfl

theorem pairwise_lt_le_getLast (advs : List Nat) (hne : advs ≠ [])
    (hinc : advs.Pairwise (· < ·)) : ∀ v ∈ advs, v ≤ advs.getLast hne := by
  induction advs with
  | nil => exact absurd rfl hne
  | cons a rest ih =>
    intro v hv
    cases rest with
    | nil =>
      simp at hv
      simp [hv]
    | cons b rest2 =>
      have hp := List.pairwise_cons.mp hinc
      have hlast : (a :: b :: rest2).getLast hne = (b :: rest2).getLast (by simp) := by
        simp [List.getLast_cons]
      rw [hlast]
      rcases List.mem_cons.mp hv with h | h
      · subst h
        exact le_of_lt (hp.1 _ (List.getLast_mem _))
      · exact ih (by simp) hp.2 v h

theorem transmitted_AdvanceLSN (c : consumer M) (lsn : LSN) :
    transmitted (AdvanceLSN c lsn) = transmitted c := rfl

/-- The invariant behind monotone reports: what was transmitted is sorted and
bounded by the current position, which the later advances do not undercut. -/
theorem transmitted_pairwise_aux (ops : List Op) :
    ∀ c : consumer M, (transmitted c).Pairwise (· ≤ ·) →
      (∀ x ∈ transmitted c, x ≤ c.currentLSN) →
      (c.currentLSN :: advanceArgs ops).Pairwise (· ≤ ·) →
      (transmitted (ops.foldl applyOp c)).Pairwise (· ≤ ·) := by
  induction ops with
  | nil => intro c h _ _; exact h
  | cons op ops ih =>
    intro c hs hb ha
    cases op with
    | advance lsn =>
      have hp := List.pairwise_cons.mp ha
      have hcur : c.currentLSN ≤ lsn := hp.1 lsn (by simp [advanceArgs])
      refine ih (AdvanceLSN c lsn) hs ?_ ?_
      · intro x hx
        exact le_trans (hb x hx) hcur
      · exact hp.2
    | sendStatus transport =>
      refine ih (SendStatus c transport).1 ?_ ?_ ?_
      · rw [SendStatus_transmitted, List.pairwise_append]
        refine ⟨hs, List.pairwise_singleton _ _, ?_⟩
        intro a ha2 b hb2
        rw [List.mem_singleton] at hb2
        rw [hb2]
        exact hb a ha2
      · intro x hx
        rw [SendStatus_transmitted, List.mem_append, List.mem_singleton] at hx
        rw [SendStatus_currentLSN]
        rcases hx with hx | hx
        · exact hb x hx
        · exact le_of_eq hx
      · rw [SendStatus_currentLSN]
        exact ha

end Tracker

/-- Claim C3: from every start state, after a non-empty sequence of `AdvanceLSN`
calls with strictly increasing values, the next `SendStatus` passes to the
connection exactly one more status update, whose write position is the value
of the last `AdvanceLSN` call; every earlier value is at most that position,
and the call returns nil when the transport succeeds. -/
theorem C3_SendStatus_after_advances {M : Type} (c : consumer.consumer M)
    (advs : List LSN) (transport : Option Err)
    (hne : advs ≠ []) (hinc : advs.Pairwise (· < ·)) :
    (consumer.SendStatus (consumer.applyAdvances c advs) transport).1.conn.statusUpdates
        = c.conn.statusUpdates ++ [⟨advs.getLast hne⟩] ∧
      (∀ v ∈ advs, v ≤ advs.getLast hne) ∧
      (consumer.SendStatus (consumer.applyAdvances c advs) none).2 = none := by
  refine ⟨?_, pairwise_lt_le_getLast advs hne hinc, rfl⟩
  cases transport <;>
    simp [consumer.SendStatus, applyAdvances_conn, applyAdvances_currentLSN c advs hne]

/-- The scenario of the specification: start `0x1500000`, advances to `0x1500010`,
`0x1500020`, `0x1500030`, then one status send. -/
theorem C3_SendStatus_after_advances_witness :
    consumer.transmitted
        (consumer.SendStatus
          (consumer.applyAdvances (consumer.New ⟨1, []⟩ 0x1500000 : consumer.consumer Unit)
            [0x1500010, 0x1500020, 0x1500030]) none).1
      = [0x1500030] := by
  have h := (C3_SendStatus_after_advances
    (consumer.New ⟨1, []⟩ 0x1500000 : consumer.consumer Unit)
    [0x1500010, 0x1500020, 0x1500030] none (by simp) (by decide)).1
  simp only [consumer.transmitted, h]
  rfl

/-- Claim C9 as stated fails: from start position `0x20`, the calls `SendStatus`,
`AdvanceLSN(0x10)`, `SendStatus` transmit `0x20` and then `0x10`. -/
theorem C9_reported_position_regresses :
    consumer.transmitted
        ([consumer.Op.sendStatus none, consumer.Op.advance 0x10,
            consumer.Op.sendStatus none].foldl
          consumer.applyOp (consumer.New ⟨1, []⟩ 0x20 : consumer.consumer Unit))
        = [0x20, 0x10] ∧
      ¬ ([0x20, 0x10] : List Nat).Pairwise (· ≤ ·) := by
  constructor
  · rfl
  · decide

/-- Claim C9, amended: in a session started at `start`, for every interleaving
of `AdvanceLSN` and `SendStatus` calls in which the start position followed by
the `AdvanceLSN` arguments is non-decreasing, the write positions passed by the
successive `SendStatus` calls are non-decreasing. -/
theorem C9_transmitted_monotone {M : Type} (errCh : consumer.Chan) (start : LSN)
    (ops : List consumer.Op)
    (hadv : (start :: consumer.advanceArgs ops).Pairwise (· ≤ ·)) :
    (consumer.transmitted
      (ops.foldl consumer.applyOp (consumer.New errCh start : consumer.consumer M))).Pairwise
      (· ≤ ·) :=
  transmitted_pairwise_aux ops (consumer.New errCh start) List.Pairwise.nil
    (by intro x hx; simp [consumer.transmitted, consumer.New, consumer.PgConn.fresh] at hx)
    hadv

/-- A session with non-decreasing advances, the last send failing in transport. -/
theorem C9_transmitted_monotone_witness :
    (consumer.transmitted
      ([consumer.Op.sendStatus none, consumer.Op.advance 0x30, consumer.Op.sendStatus none,
          consumer.Op.advance 0x40, consumer.Op.sendStatus (some "broken pipe")].foldl
        consumer.applyOp (consumer.New ⟨1, []⟩ 0x20 : consumer.consumer Unit))).Pairwise
      (· ≤ ·) :=
  C9_transmitted_monotone ⟨1, []⟩ 0x20
    [consumer.Op.sendStatus none, consumer.Op.advance 0x30, consumer.Op.sendStatus none,
      consumer.Op.advance 0x40, consumer.Op.sendStatus (some "broken pipe")]
    (by decide)

/-! ## The error sink -/

section Sink

open consumer

variable {M : Type}

theorem close_full (c : consumer M) (err : Err) (h : c.errCh.cap ≤ c.errCh.buf.length) :
    close c err = c := by
  simp [close, Chan.trySend, Nat.not_lt.mpr h]

theorem close_room (c : consumer M) (err : Err) (h : c.errCh.buf.length < c.errCh.cap) :
    close c err = { c with errCh := { c.errCh with buf := c.errCh.buf ++ [err] } } := by
  simp [close, Chan.trySend, h]

theorem foldl_close_full (es : List Err) :
    ∀ c : consumer M, c.errCh.cap ≤ c.errCh.buf.length → es.foldl close c = c := by
  induction es with
  | nil => intro c _; rfl
  | cons e es ih =>
    intro c h
    rw [List.foldl_cons, close_full c e h]
    exact ih c h

end Sink

/-- Claim C5: with a single-slot error sink that starts empty and is not
drained, after the errors `e1, ..., en` (`n ≥ 1`) are reported through `close`
the sink holds exactly `e1` and nothing else of the consumer has changed; and
in every state of a sink of any capacity `close` returns: with the error
appended when the send can proceed, with the state unchanged when it cannot. -/
theorem C5_close_keeps_first_error {M : Type} (c : consumer.consumer M) (e1 : Err)
    (es : List Err) :
    (e1 :: es).foldl consumer.close { c with errCh := ⟨1, []⟩ }
        = { c with errCh := ⟨1, [e1]⟩ } ∧
      (∀ (d : consumer.consumer M) (err : Err),
        (d.errCh.buf.length < d.errCh.cap →
          consumer.close d err = { d with errCh := ⟨d.errCh.cap, d.errCh.buf ++ [err]⟩ }) ∧
        (d.errCh.cap ≤ d.errCh.buf.length → consumer.close d err = d)) := by
  constructor
  · rw [List.foldl_cons, close_room _ e1 (by simp)]
    exact foldl_close_full es _ (by simp)
  · intro d err
    exact ⟨fun h => close_room d err h, fun h => close_full d err h⟩

/-! ## The stream loop -/

section Loop

open consumer

variable {M : Type}

/-- A message that carries a Keepalive or an Unrecognized frame is dispatched
without any effect on the state. -/
theorem dispatch_no_walData (decode : Decoder M) (handler : Handler M) (c : consumer M)
    (m : BackendMessage) (hwf : (frameOf m).isSome = true)
    (hno : ∀ xld, frameOf m ≠ some (.WALData xld)) :
    dispatch decode handler c m = .next c := by
  cases m with
  | other name => rfl
  | CopyData data =>
    cases data with
    | nil => simp [frameOf] at hwf
    | cons tag body =>
      simp only [frameOf] at hwf hno
      simp only [dispatch]
      by_cases hk : tag = pglogrepl.PrimaryKeepaliveMessageByteID
      · simp only [hk, if_true] at hwf ⊢
        cases hp : pglogrepl.ParsePrimaryKeepaliveMessage body with
        | error e => simp [hp] at hwf
        | ok pkm => rfl
      · simp only [hk, if_false] at hwf hno ⊢
        by_cases hw : tag = pglogrepl.XLogDataByteID
        · simp only [hw, if_true] at hwf hno ⊢
          cases hp : pglogrepl.ParseXLogData body with
          | error e => simp [hp] at hwf
          | ok xld => simp [hp] at hno
        · simp only [hw, if_false]

/-- A message that carries a WALData frame whose payload decodes and whose
handling succeeds adds one handler call and leaves the error sink alone. -/
theorem dispatch_walData (decode : Decoder M) (handler : Handler M) (c : consumer M)
    (m : BackendMessage) (xld : pglogrepl.XLogData) (msg : M)
    (hf : frameOf m = some (.WALData xld)) (hd : decode xld.WALData = .ok msg)
    (hh : (handler c.handlerCalls xld.WALStart msg).err = none) :
    ∃ c1, dispatch decode handler c m = .next c1 ∧
      c1.handlerCalls = c.handlerCalls ++ [(xld.WALStart, msg)] ∧ c1.errCh = c.errCh := by
  cases m with
  | other name => simp [frameOf] at hf
  | CopyData data =>
    cases data with
    | nil => simp [frameOf] at hf
    | cons tag body =>
      simp only [frameOf] at hf
      simp only [dispatch]
      by_cases hk : tag = pglogrepl.PrimaryKeepaliveMessageByteID
      · simp only [hk, if_true] at hf
        cases hp : pglogrepl.ParsePrimaryKeepaliveMessage body with
        | error e => simp [hp] at hf
        | ok pkm => simp [hp] at hf
      · simp only [hk, if_false] at hf ⊢
        by_cases hw : tag = pglogrepl.XLogDataByteID
        · simp only [hw, if_true] at hf ⊢
          cases hp : pglogrepl.ParseXLogData body with
          | error e => simp [hp] at hf
          | ok x =>
            simp only [hp, Option.some.injEq, Frame.WALData.injEq] at hf
            subst hf
            simp only [hd, hh]
            exact ⟨_, rfl, by rw [applyAdvances_handlerCalls],
              by rw [applyAdvances_errCh]⟩
        · simp [hw] at hf

theorem walCalls_cons_walData (decode : Decoder M) (m : BackendMessage)
    (msgs : List BackendMessage) (xld : pglogrepl.XLogData) (msg : M)
    (hf : frameOf m = some (.WALData xld)) (hd : decode xld.WALData = .ok msg) :
    walCalls decode (m :: msgs) = (xld.WALStart, msg) :: walCalls decode msgs := by
  simp [walCalls, hf, hd]

theorem walCalls_cons_other (decode : Decoder M) (m : BackendMessage)
    (msgs : List BackendMessage) (hno : ∀ xld, frameOf m ≠ some (.WALData xld)) :
    walCalls decode (m :: msgs) = walCalls decode msgs := by
  cases hfm : frameOf m with
  | none => simp [walCalls, hfm]
  | some f =>
    cases f with
    | WALData xld => exact absurd hfm (hno xld)
    | Keepalive pkm => simp [walCalls, hfm]
    | Unrecognized raw => simp [walCalls, hfm]

theorem walStarts_cons_other (m : BackendMessage) (msgs : List BackendMessage)
    (hno : ∀ xld, frameOf m ≠ some (.WALData xld)) :
    walStarts (m :: msgs) = walStarts msgs := by
  cases hfm : frameOf m with
  | none => simp [walStarts, hfm]
  | some f =>
    cases f with
    | WALData xld => exact absurd hfm (hno xld)
    | Keepalive pkm => simp [walStarts, hfm]
    | Unrecognized raw => simp [walStarts, hfm]

/-- The loop over a sequence of received frames, by induction on the sequence. -/
theorem process_receiveAll (decode : Decoder M) (handler : Handler M)
    (msgs : List BackendMessage) :
    ∀ c : consumer M,
      (∀ m ∈ msgs, (frameOf m).isSome = true) →
      (∀ m ∈ msgs, ∀ xld, frameOf m = some (.WALData xld) →
        ∃ msg, decode xld.WALData = .ok msg) →
      (∀ pre m post xld msg, msgs = pre ++ m :: post → frameOf m = some (.WALData xld) →
        decode xld.WALData = .ok msg →
        (handler (c.handlerCalls ++ walCalls decode pre) xld.WALStart msg).err = none) →
      ∃ c1, processReplicationMessage decode handler c (receiveAll msgs) = .next c1 ∧
        c1.handlerCalls = c.handlerCalls ++ walCalls decode msgs ∧
        (walCalls decode msgs).map Prod.fst = walStarts msgs ∧
        c1.errCh = c.errCh := by
  induction msgs with
  | nil =>
    intro c _ _ _
    exact ⟨c, rfl, by simp [walCalls], rfl, rfl⟩
  | cons m msgs ih =>
    intro c hwf hdec hh
    have hwf2 : ∀ x ∈ msgs, (frameOf x).isSome = true :=
      fun x hx => hwf x (List.mem_cons_of_mem _ hx)
    have hdec2 : ∀ x ∈ msgs, ∀ xld, frameOf x = some (.WALData xld) →
        ∃ msg, decode xld.WALData = .ok msg :=
      fun x hx => hdec x (List.mem_cons_of_mem _ hx)
    have hm : m ∈ m :: msgs := List.mem_cons_self _ _
    by_cases hw : ∃ xld, frameOf m = some (.WALData xld)
    · obtain ⟨xld, hf⟩ := hw
      obtain ⟨msg, hd⟩ := hdec m hm xld hf
      have hhead : (handler c.handlerCalls xld.WALStart msg).err = none := by
        have := hh [] m msgs xld msg rfl hf hd
        simpa [walCalls] using this
      obtain ⟨c1, hstep, hcalls, herr⟩ :=
        dispatch_walData decode handler c m xld msg hf hd hhead
      have hh2 : ∀ pre x post y z, msgs = pre ++ x :: post →
          frameOf x = some (.WALData y) → decode y.WALData = .ok z →
          (handler (c1.handlerCalls ++ walCalls decode pre) y.WALStart z).err = none := by
        intro pre x post y z hsplit hfx hdx
        have := hh (m :: pre) x post y z (by rw [hsplit]; rfl) hfx hdx
        rw [walCalls_cons_walData decode m pre xld msg hf hd] at this
        rw [hcalls, List.append_assoc]
        exact this
      obtain ⟨c2, hrun, hcalls2, hstarts, herr2⟩ := ih c1 hwf2 hdec2 hh2
      refine ⟨c2, ?_, ?_, ?_, ?_⟩
      · simp only [receiveAll, List.map_cons, processReplicationMessage, iteration, hstep]
        exact hrun
      · rw [hcalls2, hcalls, walCalls_cons_walData decode m msgs xld msg hf hd,
          List.append_assoc]
        rfl
      · simp only [walCalls, walStarts, hf, hd, List.map_cons, hstarts]
      · rw [herr2, herr]
    · have hno : ∀ xld, frameOf m ≠ some (.WALData xld) := fun xld h => hw ⟨xld, h⟩
      have hstep := dispatch_no_walData decode handler c m (hwf m hm) hno
      have hh2 : ∀ pre x post y z, msgs = pre ++ x :: post →
          frameOf x = some (.WALData y) → decode y.WALData = .ok z →
          (handler (c.handlerCalls ++ walCalls decode pre) y.WALStart z).err = none := by
        intro pre x post y z hsplit hfx hdx
        have := hh (m :: pre) x post y z (by rw [hsplit]; rfl) hfx hdx
        rw [walCalls_cons_other decode m pre hno] at this
        exact this
      obtain ⟨c2, hrun, hcalls2, hstarts, herr2⟩ := ih c hwf2 hdec2 hh2
      refine ⟨c2, ?_, ?_, ?_, ?_⟩
      · simp only [receiveAll, List.map_cons, processReplicationMessage, iteration, hstep]
        exact hrun
      · rw [hcalls2, walCalls_cons_other decode m msgs hno]
      · rw [walCalls_cons_other decode m msgs hno, walStarts_cons_other m msgs hno, hstarts]
      · exact herr2

end Loop

/-- Claim C4: for every sequence of received messages that carry well-formed
Keepalive, WALData or Unrecognized frames, on which the decoder succeeds on
every WALData payload and the handler returns nil at every call of the run,
the loop is still running after the sequence, the handler was called exactly
once per WALData frame with that frame's WAL-start position and decoded
payload, in arrival order, the error sink is unchanged, and every Keepalive or
Unrecognized frame of the sequence is dispatched without any effect. -/
theorem C4_handler_called_once_per_WALData {M : Type} (decode : consumer.Decoder M)
    (handler : consumer.Handler M) (c : consumer.consumer M)
    (msgs : List consumer.BackendMessage)
    (hwf : ∀ m ∈ msgs, (consumer.frameOf m).isSome = true)
    (hdec : ∀ m ∈ msgs, ∀ xld, consumer.frameOf m = some (.WALData xld) →
      ∃ msg, decode xld.WALData = .ok msg)
    (hh : ∀ pre m post xld msg, msgs = pre ++ m :: post →
      consumer.frameOf m = some (.WALData xld) → decode xld.WALData = .ok msg →
      (handler (c.handlerCalls ++ consumer.walCalls decode pre) xld.WALStart msg).err
        = none) :
    (∃ c1, consumer.processReplicationMessage decode handler c (consumer.receiveAll msgs)
          = .next c1 ∧
        c1.handlerCalls = c.handlerCalls ++ consumer.walCalls decode msgs ∧
        (consumer.walCalls decode msgs).map Prod.fst = consumer.walStarts msgs ∧
        c1.errCh = c.errCh) ∧
      (∀ m ∈ msgs, ∀ d : consumer.consumer M,
        (∀ xld, consumer.frameOf m ≠ some (.WALData xld)) →
        consumer.dispatch decode handler d m = .next d) :=
  ⟨process_receiveAll decode handler msgs c hwf hdec hh,
    fun m hm d hno => dispatch_no_walData decode handler d m (hwf m hm) hno⟩

/-- The scripted sequence Keepalive, WALData, WALData, Unrecognized, WALData. -/
theorem C4_handler_called_once_per_WALData_witness :
    ∃ c1, consumer.processReplicationMessage consumer.sampleDecode consumer.sampleHandler
          consumer.sampleConsumer (consumer.receiveAll consumer.sampleFrames) = .next c1 ∧
        c1.handlerCalls.map Prod.fst = [0x1500010, 0x1500020, 0x1500030] ∧
        c1.errCh = ⟨1, []⟩ := by
  obtain ⟨c1, hrun, hcalls, hstarts, herr⟩ :=
    (C4_handler_called_once_per_WALData consumer.sampleDecode consumer.sampleHandler
      consumer.sampleConsumer consumer.sampleFrames (by decide)
      (fun _ _ xld _ => ⟨xld.WALData, rfl⟩) (fun _ _ _ _ _ _ _ _ => rfl)).1
  refine ⟨c1, hrun, ?_, herr⟩
  rw [hcalls, List.map_append, hstarts]
  decide

/-- Claim C6 fails on the code: with the cancellation signal raised, the
`select` can run the ticker case; `SendStatus` then fails on the cancelled
context and the loop returns with that error in the sink. -/
theorem C6_tick_after_cancel_fills_sink :
    consumer.Branch.enabled (consumer.cancel consumer.sampleConsumer)
        (.tick (some "context canceled")) = true ∧
      consumer.processReplicationMessage consumer.sampleDecode consumer.sampleHandler
          (consumer.cancel consumer.sampleConsumer) [.tick (some "context canceled")]
        = .exit .returned
            { ctxDone := true
              conn := ⟨[⟨0x1500000⟩], [], 0⟩
              currentLSN := 0x1500000
              errCh := ⟨1, ["could not send replay progress: failed to send standy status: context canceled"]⟩
              handlerCalls := [] } := by
  constructor <;> rfl

/-- Claim C7 fails on the code: a session that ends on a receive failure, on a
cancellation seen by the receive, on a decode failure, on a handler failure or
on a failed status send (in the loop or in `Run`) ends with no call of `Close`;
only the cancellation case and a failed replication start call it, once. -/
theorem C7_exit_paths_without_Close :
    (consumer.session consumer.sampleDecode consumer.sampleHandler consumer.sampleConsumer
        none none none [.recv (.failed "unexpected EOF")]).state.conn.closeCalls = 0 ∧
      (consumer.session consumer.sampleDecode consumer.sampleHandler consumer.sampleConsumer
        none none none [.recv .canceled]).state.conn.closeCalls = 0 ∧
      (consumer.session consumer.failingDecode consumer.sampleHandler consumer.sampleConsumer
        none none none [.recv (.message (some (consumer.sampleWALData 0x10)))]).state.conn.closeCalls
        = 0 ∧
      (consumer.session consumer.sampleDecode consumer.failingHandler consumer.sampleConsumer
        none none none [.recv (.message (some (consumer.sampleWALData 0x10)))]).state.conn.closeCalls
        = 0 ∧
      (consumer.session consumer.sampleDecode consumer.sampleHandler consumer.sampleConsumer
        none none none [.tick (some "broken pipe")]).state.conn.closeCalls = 0 ∧
      (consumer.session consumer.sampleDecode consumer.sampleHandler consumer.sampleConsumer
        none none (some "broken pipe") []).state.conn.closeCalls = 0 ∧
      (consumer.session consumer.sampleDecode consumer.sampleHandler consumer.sampleConsumer
        none none none [.done]).state.conn.closeCalls = 1 ∧
      (consumer.session consumer.sampleDecode consumer.sampleHandler consumer.sampleConsumer
        none (some "slot is active") none []).state.conn.closeCalls = 1 := by
  decide

/-- Claim C8 fails on the code: a frame tagged Keepalive or WALData whose header
does not parse ends the process through `log.Fatalln`, and nothing reaches the
error sink. -/
theorem C8_header_parse_failure_is_fatal_exit :
    consumer.processReplicationMessage consumer.sampleDecode consumer.sampleHandler
        consumer.sampleConsumer [.recv (.message (some (.CopyData [107])))]
        = .exit .fatal consumer.sampleConsumer ∧
      consumer.processReplicationMessage consumer.sampleDecode consumer.sampleHandler
        consumer.sampleConsumer [.recv (.message (some (.CopyData [119, 0, 0])))]
        = .exit .fatal consumer.sampleConsumer ∧
      consumer.sampleConsumer.errCh.buf = [] := by
  decide

/-- Claim C10 fails on the code: for a `CopyData` message with an empty payload
the dispatch reads `Data[0]` out of bounds and panics, whatever the decoder,
the handler and the state. -/
theorem C10_empty_CopyData_panics {M : Type} (decode : consumer.Decoder M)
    (handler : consumer.Handler M) (c : consumer.consumer M) :
    consumer.iteration decode handler c (.recv (.message (some (.CopyData []))))
      = .exit .panicked c := rfl

/-! ## Further properties of the stream loop -/

section LoopFacts

open consumer

variable {M : Type}

theorem close_conn (c : consumer M) (err : Err) : (close c err).conn = c.conn := by
  unfold close
  cases c.errCh.trySend err <;> rfl

theorem dispatch_conn (decode : Decoder M) (handler : Handler M) (c : consumer M)
    (m : BackendMessage) : (dispatch decode handler c m).state.conn = c.conn := by
  cases m with
  | other name => rfl
  | CopyData data =>
    cases data with
    | nil => rfl
    | cons tag body =>
      simp only [dispatch]
      split
      · split <;> rfl
      · split
        · split
          · rfl
          · split
            · simp only [Step.state, close_conn]
            · split
              · simp only [Step.state, close_conn, applyAdvances_conn]
              · simp only [Step.state, applyAdvances_conn]
        · rfl

theorem iteration_closeCalls (decode : Decoder M) (handler : Handler M) (c : consumer M)
    (b : Branch) :
    (∀ c1, iteration decode handler c b = .next c1 →
        c1.conn.closeCalls = c.conn.closeCalls) ∧
      (iteration decode handler c b).state.conn.closeCalls ≤ c.conn.closeCalls + 1 := by
  cases b with
  | done => exact ⟨fun c1 h => by simp [iteration] at h, by simp [iteration, Step.state, closeDbConnection]⟩
  | tick transport =>
    cases transport with
    | none =>
      refine ⟨fun c1 h => ?_, by simp [iteration, SendStatus, Step.state]⟩
      simp only [iteration, SendStatus, Step.next.injEq] at h
      rw [← h]
    | some err =>
      exact ⟨fun c1 h => by simp [iteration, SendStatus] at h,
        by simp [iteration, SendStatus, Step.state, close_conn]⟩
  | recv r =>
    cases r with
    | deadlineExceeded =>
      exact ⟨fun c1 h => by simp only [iteration, Step.next.injEq] at h; rw [← h],
        by simp [iteration, Step.state]⟩
    | canceled =>
      exact ⟨fun c1 h => by simp [iteration] at h, by simp [iteration, Step.state]⟩
    | failed err =>
      exact ⟨fun c1 h => by simp [iteration] at h,
        by simp [iteration, Step.state, close_conn]⟩
    | message repMsg =>
      cases repMsg with
      | none =>
        exact ⟨fun c1 h => by simp only [iteration, Step.next.injEq] at h; rw [← h],
          by simp [iteration, Step.state]⟩
      | some m =>
        have hc := dispatch_conn decode handler c m
        refine ⟨fun c1 h => ?_, ?_⟩
        · simp only [iteration] at h
          rw [h] at hc
          simp only [Step.state] at hc
          rw [hc]
        · simp only [iteration]
          rw [hc]
          omega

end LoopFacts

/-- Along every script of iterations the loop calls `Close` on the connection at
most once. -/
theorem processReplicationMessage_closes_at_most_once {M : Type}
    (decode : consumer.Decoder M) (handler : consumer.Handler M)
    (script : List consumer.Branch) (c : consumer.consumer M) :
    (consumer.processReplicationMessage decode handler c script).state.conn.closeCalls
      ≤ c.conn.closeCalls + 1 := by
  induction script generalizing c with
  | nil => simp [consumer.processReplicationMessage, consumer.Step.state]
  | cons b script ih =>
    have hit := iteration_closeCalls decode handler c b
    simp only [consumer.processReplicationMessage]
    cases hstep : consumer.iteration decode handler c b with
    | next c1 =>
      have h1 := hit.1 c1 hstep
      have h2 := ih c1
      simp only []
      omega
    | exit how c1 =>
      have h2 := hit.2
      rw [hstep] at h2
      exact h2

/-- The cancellation case of the `select` calls `Close` once, reports no error
and returns; a receive that ends with `context.Canceled` returns with the state
unchanged. -/
theorem cancellation_exits_without_error {M : Type} (decode : consumer.Decoder M)
    (handler : consumer.Handler M) (c : consumer.consumer M) :
    consumer.iteration decode handler c .done
        = .exit .returned
            { c with conn := { c.conn with closeCalls := c.conn.closeCalls + 1 } } ∧
      consumer.iteration decode handler c (.recv .canceled) = .exit .returned c :=
  ⟨rfl, rfl⟩

/-- A WALData frame whose payload the decoder rejects, received while the sink
has room, ends the loop with exactly that one error appended to the sink and
without a handler call. -/
theorem decode_failure_reported_once {M : Type} (decode : consumer.Decoder M)
    (handler : consumer.Handler M) (c : consumer.consumer M) (body : List UInt8)
    (err : Err) (hlen : 24 ≤ body.length) (hdec : decode (body.drop 24) = .error err)
    (hroom : c.errCh.buf.length < c.errCh.cap) :
    consumer.iteration decode handler c
        (.recv (.message (some (.CopyData (pglogrepl.XLogDataByteID :: body)))))
      = .exit .returned
          { c with errCh := ⟨c.errCh.cap,
              c.errCh.buf ++ ["invalid pgoutput message: " ++ err]⟩ } := by
  have hk : pglogrepl.XLogDataByteID ≠ pglogrepl.PrimaryKeepaliveMessageByteID := by decide
  have hparse : pglogrepl.ParseXLogData body = .ok
      { WALStart := pglogrepl.bigEndianUint64 body
        ServerWALEnd := pglogrepl.bigEndianUint64 (body.drop 8)
        ServerTime := pglogrepl.toInt64 (pglogrepl.bigEndianUint64 (body.drop 16))
        WALData := body.drop 24 } := by
    simp [pglogrepl.ParseXLogData, Nat.not_lt.mpr hlen]
  simp only [consumer.iteration, consumer.dispatch, hk, if_false, if_true, hparse, hdec]
  rw [close_room c _ hroom]

/-- A rejected payload in the scripted WALData frame at `0x1500010`. -/
theorem decode_failure_reported_once_witness :
    consumer.iteration consumer.failingDecode consumer.sampleHandler consumer.sampleConsumer
        (.recv (.message (some (consumer.sampleWALData 0x10))))
      = .exit .returned
          { consumer.sampleConsumer with
            errCh := ⟨1, ["invalid pgoutput message: unknown message type"]⟩ } :=
  decode_failure_reported_once consumer.failingDecode consumer.sampleHandler
    consumer.sampleConsumer
    ([0, 0, 0, 0, 1, 0x50, 0, 0x10] ++ List.replicate 16 0 ++ [1, 2, 3])
    "unknown message type" (by decide) rfl (by decide)

end Pg2ch
